import Mathlib

/-!
Verification of the szmaterlok chat server core against its specification.

This file shallowly embeds the Go source of the repository into Lean:

* Go strings and byte slices are modelled as `List Char` (the byte/rune
  distinction plays no role in any of the verified properties);
* `time.Time` instants are modelled as `Int` (unix microseconds);
  `t.After(u)` is the strict comparison `u < t`, `t.Before(u)` is `t < u`;
* Go maps are modelled extensionally as functions into `Option`;
* fallible Go functions returning `(T, error)` are modelled with `Except`
  or with an explicit result type that also has a constructor for a
  runtime panic;
* concurrent code that spawns goroutines and awaits them through a
  `sync.WaitGroup` before returning is modelled by the sequence of
  completed invocations it performs: the list returned by the Lean
  function is the multiset/sequence of calls that have all finished by
  the time the Go function returns.

External libraries (Go standard library `encoding/json`,
`encoding/base64`, `crypto/aes`, `crypto/cipher` and the `filippo.io/age`
package) are not part of this repository; they are modelled as abstract
operations, and the contracts they document are taken as hypotheses at
exactly the points where the verified code relies on them.
-/

namespace Szmaterlok

/-- ChatUser is author of single message sent (handlers.go). -/
structure ChatUser where
  ID : List Char
  Nickname : List Char
deriving DecidableEq

/-- EventSentMessage is model for event of single sent message by client to
all listeners (handlers.go). `SentAt` is a `time.Time`, modelled as `Int`. -/
structure EventSentMessage where
  ID : List Char
  From : ChatUser
  Content : List Char
  SentAt : Int
deriving DecidableEq

/-!
## Circular message buffer (service/buffer.go)

The Go `MessageCircularBuffer` is a cyclic singly-linked list of
`bufferNode`s together with a `head` pointer.  A cyclic pointer structure
has no direct counterpart in pure Lean data, so we represent the ring by
the list `slots` of the node values (in ring order) together with the
index `head` of the node the head pointer designates.  Following a `next`
pointer is moving to the successor index modulo the ring length.
-/

structure MessageCircularBuffer where
  slots : List (Option EventSentMessage)
  head : Nat
deriving DecidableEq

/-- NewMessageCircularBuffer returns a circular buffer with given size
(buffer.go).  The constructor allocates one head node and then runs
`for i := 1; i < size; i++` adding one node per iteration, so the ring
has `1 + max (size-1) 0` nodes: for any `size ≤ 1` (including zero and
negative sizes) the loop body never runs and the ring is a single
self-linked node. -/
def NewMessageCircularBuffer (size : Int) : MessageCircularBuffer :=
  { slots := List.replicate (1 + (size - 1).toNat) none
    head := 0 }

/-- PushEvent writes the event into the head node and advances the head
pointer to the next node (buffer.go). -/
def PushEvent (mb : MessageCircularBuffer) (evt : EventSentMessage) : MessageCircularBuffer :=
  { slots := mb.slots.set mb.head (some evt)
    head := (mb.head + 1) % mb.slots.length }

/-- BufferedEvents walks the ring once starting at the head node and
collects the non-nil values in encounter order (buffer.go).  Starting at
`head` and following `next` pointers for one full cycle visits the slots
in rotated order. -/
def BufferedEvents (mb : MessageCircularBuffer) : List EventSentMessage :=
  (mb.slots.rotate mb.head).filterMap id

/-- A sequence of `PushEvent` calls, oldest first. -/
def pushAll (mb : MessageCircularBuffer) (evs : List EventSentMessage) : MessageCircularBuffer :=
  evs.foldl PushEvent mb

/-- A fresh ring of `n` empty nodes with the head at node 0. -/
def freshBuffer (n : Nat) : MessageCircularBuffer :=
  { slots := List.replicate n none, head := 0 }

theorem pushAll_append (mb : MessageCircularBuffer) (evs : List EventSentMessage)
    (e : EventSentMessage) : pushAll mb (evs ++ [e]) = PushEvent (pushAll mb evs) e := by
  simp [pushAll]

/-- Rotating a freshly `set` list by the index just written puts the
written value first. -/
theorem rotate_set_head {α : Type} (l : List α) (i : Nat) (v : α) (h : i < l.length) :
    (l.set i v).rotate i = v :: (l.drop (i + 1) ++ l.take i) := by
  rw [List.set_eq_take_cons_drop v h]
  rw [List.rotate_eq_drop_append_take (by simp; omega)]
  have htake : (l.take i ++ v :: l.drop (i + 1)).take i = l.take i := by
    rw [List.take_append_of_le_length (by simp; omega)]
    simp [Nat.le_of_lt h]
  have hdrop : (l.take i ++ v :: l.drop (i + 1)).drop i = v :: l.drop (i + 1) := by
    have hlen : (l.take i).length = i := by simp [Nat.le_of_lt h]
    calc (l.take i ++ v :: l.drop (i + 1)).drop i
        = (l.take i ++ v :: l.drop (i + 1)).drop (l.take i).length := by rw [hlen]
      _ = v :: l.drop (i + 1) := List.drop_left _ _
  rw [htake, hdrop]
  simp

/-- The main ring-buffer invariant: after pushing the sequence `evs` into a
fresh ring of `n ≥ 1` nodes, the ring (read in traversal order from the
head) consists of empty slots followed by the last `min L n` events in
insertion order. -/
theorem pushAll_invariant (n : Nat) (hn : 1 ≤ n) (evs : List EventSentMessage) :
    (pushAll (freshBuffer n) evs).slots.length = n ∧
    (pushAll (freshBuffer n) evs).head = evs.length % n ∧
    (pushAll (freshBuffer n) evs).slots.rotate (pushAll (freshBuffer n) evs).head =
      List.replicate (n - evs.length) none ++ (evs.drop (evs.length - n)).map some := by
  induction evs using List.reverseRecOn with
  | nil =>
    refine ⟨by simp [pushAll, freshBuffer], by simp [pushAll, freshBuffer], ?_⟩
    simp [pushAll, freshBuffer, List.rotate_replicate]
  | append_singleton evs e ih =>
    obtain ⟨hlen, hhead, hrot⟩ := ih
    set b := pushAll (freshBuffer n) evs with hb
    have hheadlt : b.head < n := by
      rw [hhead]; exact Nat.mod_lt _ (by omega)
    have hpush : pushAll (freshBuffer n) (evs ++ [e]) = PushEvent b e :=
      pushAll_append _ _ _
    have hlen' : (PushEvent b e).slots.length = n := by
      simp [PushEvent, hlen]
    have hhead' : (PushEvent b e).head = (evs ++ [e]).length % n := by
      show (b.head + 1) % b.slots.length = (evs ++ [e]).length % n
      rw [hlen, hhead, Nat.mod_add_mod]
      simp
    rw [hpush]
    refine ⟨hlen', hhead', ?_⟩
    -- rewrite the rotation of the updated ring in terms of the old rotation
    have hset : (PushEvent b e).slots = b.slots.set b.head (some e) := by
      simp [PushEvent]
    have hrotset : (b.slots.set b.head (some e)).rotate b.head =
        some e :: (b.slots.drop (b.head + 1) ++ b.slots.take b.head) :=
      rotate_set_head _ _ _ (by rw [hlen]; exact hheadlt)
    have htail : (b.slots.rotate b.head).tail =
        b.slots.drop (b.head + 1) ++ b.slots.take b.head := by
      rw [List.rotate_eq_drop_append_take (by rw [hlen]; omega)]
      rw [List.drop_eq_getElem_cons (show b.head < b.slots.length by rw [hlen]; exact hheadlt)]
      rw [List.cons_append, List.tail_cons]
    -- the new head is the successor of the old one, modulo the ring length
    have hsucc : (evs ++ [e]).length % n = (b.head + 1) % n := by
      rw [hhead, Nat.mod_add_mod]
      simp
    have hmod : (b.slots.set b.head (some e)).rotate ((b.head + 1) % n) =
        (b.slots.set b.head (some e)).rotate (b.head + 1) := by
      have hl : (b.slots.set b.head (some e)).length = n := by simp [hlen]
      rw [← hl, List.rotate_mod]
    have hrot1 : ∀ (x : Option EventSentMessage) (l : List (Option EventSentMessage)),
        (x :: l).rotate 1 = l ++ [x] := by
      intro x l
      have h := List.rotate_cons_succ l x 0
      simpa using h
    rw [hhead', hset, hsucc, hmod, ← List.rotate_rotate]
    rw [hrotset, ← htail, hrot]
    rw [hrot1]
    -- two cases: the ring still has empty slots, or it is already full
    rcases Nat.lt_or_ge evs.length n with hcase | hcase
    · have h1 : n - evs.length = (n - (evs ++ [e]).length) + 1 := by simp; omega
      have h2 : evs.length - n = 0 := by omega
      have h3 : (evs ++ [e]).length - n = 0 := by simp; omega
      rw [h1, h2, h3]
      simp [List.replicate_succ]
    · have h1 : n - evs.length = 0 := by omega
      have h2 : n - (evs ++ [e]).length = 0 := by simp; omega
      have h3 : (evs ++ [e]).length - n = (evs.length - n) + 1 := by simp; omega
      rw [h1, h2, h3]
      have hdd : evs.drop (evs.length - n + 1) = (evs.drop (evs.length - n)).tail := by
        rw [List.tail_drop]
      have hda : (evs ++ [e]).drop (evs.length - n + 1) =
          evs.drop (evs.length - n + 1) ++ [e] :=
        List.drop_append_of_le_length (by omega)
      rw [hda, hdd]
      have hne : evs.drop (evs.length - n) ≠ [] := by
        intro hcon
        have := congrArg List.length hcon
        simp at this
        omega
      obtain ⟨x, xs, hx⟩ := List.exists_cons_of_ne_nil hne
      rw [hx]
      simp

/-- Reading off `BufferedEvents` from the invariant. -/
theorem bufferedEvents_pushAll (n : Nat) (hn : 1 ≤ n) (evs : List EventSentMessage) :
    BufferedEvents (pushAll (freshBuffer n) evs) = evs.drop (evs.length - n) := by
  obtain ⟨-, -, hrot⟩ := pushAll_invariant n hn evs
  rw [BufferedEvents, hrot]
  rw [List.filterMap_append]
  have h1 : (List.replicate (n - evs.length) (none : Option EventSentMessage)).filterMap id
      = [] := by
    induction n - evs.length with
    | zero => simp
    | succ k ih => rw [List.replicate_succ, List.filterMap_cons]; exact ih
  have h2 : ∀ l : List EventSentMessage, (l.map some).filterMap id = l := by
    intro l
    induction l with
    | nil => simp
    | cons x xs ih => rw [List.map_cons, List.filterMap_cons]; simp [ih]
  rw [h1, List.nil_append, h2]

/-- `NewMessageCircularBuffer` with a positive size is a fresh ring of that
many nodes. -/
theorem new_eq_fresh (N : Nat) (hN : 1 ≤ N) :
    NewMessageCircularBuffer (N : Int) = freshBuffer N := by
  have h : 1 + ((N : Int) - 1).toNat = N := by omega
  simp only [NewMessageCircularBuffer, freshBuffer, h]

/-- C2: For every sequence of L calls to `MessageCircularBuffer.PushEvent` on
a buffer constructed with capacity N (N ≥ 1), a subsequent call to
`BufferedEvents` returns exactly the last min(L, N) pushed events, in
insertion order (oldest first).  `evs.drop (evs.length - N)` (with
truncating Nat subtraction) is precisely the suffix of the last
min(L, N) pushed events. -/
theorem buffer_last_min_events (N : Nat) (hN : 1 ≤ N) (evs : List EventSentMessage) :
    BufferedEvents (pushAll (NewMessageCircularBuffer (N : Int)) evs) =
      evs.drop (evs.length - N) ∧
    (BufferedEvents (pushAll (NewMessageCircularBuffer (N : Int)) evs)).length =
      min evs.length N := by
  rw [new_eq_fresh N hN, bufferedEvents_pushAll N hN evs]
  refine ⟨rfl, ?_⟩
  rw [List.length_drop]
  omega

/-- Concrete witness events. -/
def chatUserA : ChatUser := { ID := ['u'], Nickname := ['k'] }

def msgA : EventSentMessage := { ID := ['a'], From := chatUserA, Content := ['x'], SentAt := 1 }

def msgB : EventSentMessage := { ID := ['b'], From := chatUserA, Content := ['y'], SentAt := 2 }

def msgC : EventSentMessage := { ID := ['c'], From := chatUserA, Content := ['z'], SentAt := 3 }

/-- Witness for C2: capacity 2, three pushes keep the last two events. -/
theorem buffer_last_min_events_witness :
    BufferedEvents (pushAll (NewMessageCircularBuffer ((2 : Nat) : Int)) [msgA, msgB, msgC]) =
      [msgB, msgC] := by
  have h := (buffer_last_min_events 2 (by decide) [msgA, msgB, msgC]).1
  rw [h]
  decide

/-- C10: For every size argument ≤ 0, `NewMessageCircularBuffer` does not
fail: it constructs the same single-node self-linked ring as capacity 1,
so every push overwrites the single slot and `BufferedEvents` returns at
most one event, the most recently pushed one. -/
theorem buffer_nonpositive_size_single_node (size : Int) (hsz : size ≤ 0) :
    NewMessageCircularBuffer size = NewMessageCircularBuffer (1 : Int) ∧
    (NewMessageCircularBuffer size).slots.length = 1 ∧
    (∀ evs : List EventSentMessage,
      BufferedEvents (pushAll (NewMessageCircularBuffer size) evs) =
        evs.drop (evs.length - 1) ∧
      (BufferedEvents (pushAll (NewMessageCircularBuffer size) evs)).length ≤ 1) := by
  have hone : NewMessageCircularBuffer size = freshBuffer 1 := by
    have h : 1 + (size - 1).toNat = 1 := by omega
    simp only [NewMessageCircularBuffer, freshBuffer, h]
  have hone1 : NewMessageCircularBuffer (1 : Int) = freshBuffer 1 := by
    have h : 1 + ((1 : Int) - 1).toNat = 1 := by decide
    simp only [NewMessageCircularBuffer, freshBuffer, h]
  refine ⟨by rw [hone, hone1], by rw [hone]; rfl, ?_⟩
  intro evs
  rw [hone, bufferedEvents_pushAll 1 (by decide) evs]
  refine ⟨rfl, ?_⟩
  rw [List.length_drop]
  omega

/-- Witness for C10: size 0 behaves as capacity 1; two pushes keep only the
last event. -/
theorem buffer_nonpositive_size_single_node_witness :
    NewMessageCircularBuffer (0 : Int) = NewMessageCircularBuffer (1 : Int) ∧
    BufferedEvents (pushAll (NewMessageCircularBuffer (0 : Int)) [msgA, msgB]) = [msgB] := by
  obtain ⟨h1, -, h3⟩ := buffer_nonpositive_size_single_node 0 (by decide)
  refine ⟨h1, ?_⟩
  rw [(h3 [msgA, msgB]).1]
  decide

/-!
## Last messages buffer (part_013)
-/

/-- findEventByID (part_013): iterates the snapshot and returns the index of
the first event with the given ID together with a found flag; `(0, false)`
when no event matches. -/
def findEventByIDAux (target : List Char) : List EventSentMessage → Nat → Nat × Bool
  | [], _ => (0, false)
  | item :: rest, i =>
    if item.ID = target then (i, true) else findEventByIDAux target rest (i + 1)

def findEventByID (target : List Char) (items : List EventSentMessage) : Nat × Bool :=
  findEventByIDAux target items 0

/-- The filtering loop of `LastMessagesBuffer.LastMessages` (part_013):
iterates `items` with index `i`, skips the matched index `target`, and
skips when `item.SentAt.After(items[i].SentAt)` holds.  Note that the
source compares `item` — which *is* `items[i]` — against itself, so the
second condition is never true.  `items.getD i item` renders the Go
expression `items[i]` (the in-range default is the element itself). -/
def lastMessagesLoop (items : List EventSentMessage) (target : Nat) :
    List EventSentMessage → Nat → List EventSentMessage
  | [], _ => []
  | item :: rest, i =>
    if i = target then lastMessagesLoop items target rest (i + 1)
    else if (items.getD i item).SentAt < item.SentAt then
      lastMessagesLoop items target rest (i + 1)
    else item :: lastMessagesLoop items target rest (i + 1)

/-- `LastMessagesBuffer.LastMessages` (part_013) applied to an
already-taken snapshot of the ring buffer. -/
def LastMessagesOnSnapshot (items : List EventSentMessage) (lastMessageID : List Char) :
    List EventSentMessage :=
  if lastMessageID = [] then items
  else
    match findEventByID lastMessageID items with
    | (_, false) => items
    | (target, true) => lastMessagesLoop items target items 0

/-- `LastMessagesBuffer.LastMessages` (part_013): takes the buffered
snapshot and filters it relative to the last seen message id. -/
def LastMessages (buffer : MessageCircularBuffer) (lastMessageID : List Char) :
    List EventSentMessage :=
  LastMessagesOnSnapshot (BufferedEvents buffer) lastMessageID

/-- C3 evidence: on the snapshot `[msgA, msgB]` (`msgA` sent strictly
earlier than `msgB`) with `lastMessageID` = `msgB.ID`, the code returns
`[msgA]` — the entry *before* the matched event — because the `SentAt`
guard compares each element against itself.  The specification requires
the result to be the entries after the matched event that are strictly
later by `sentAt`, i.e. `[]`. -/
theorem lastMessages_self_comparison_eval :
    LastMessagesOnSnapshot [msgA, msgB] (['b']) = [msgA] := by
  decide

/-!
## Notifier with buffer: replay-then-live (part_013)

`MessageNotifierWithBuffer.Subscribe` fills a buffered channel `tmpChan`
with the marshalled replay set, closes it, and spawns a goroutine that
first drains `tmpChan` into the subscriber channel and only then starts
forwarding `transientChan`, on which the inner notifier delivers live
events.  A live delivery can therefore reach the subscriber only after the
forwarding loop for `tmpChan` has finished, which the sequential model of
the goroutine below makes explicit.  `live` stands for the sequence of
events the inner notifier sends on `transientChan` during the
subscription.
-/

def messageSentStr : String := "message-sent"

/-- MessageSent is the SSE event type for message sent events (part_004). -/
def MessageSent : List Char := messageSentStr.data

/-- sse.Event (part_000): an SSE frame.  The Go field `Type` is rendered as
`EventType` (`Type` is reserved in Lean); `Data` is a byte slice, modelled
as `List Char`. -/
structure sse.Event where
  EventType : List Char
  Data : List Char
  ID : List Char
  Retry : Int
deriving DecidableEq

/-- The loop of `MessageNotifierWithBuffer.Subscribe` (part_013) that fills
`tmpChan`: marshals each replayed message — skipping marshal failures —
and enqueues an SSE frame carrying the message id and body.
`jsonMarshal` is the external `encoding/json` marshaller. -/
def tmpChanContents (jsonMarshal : EventSentMessage → Option (List Char))
    (buffered : List EventSentMessage) : List sse.Event :=
  buffered.filterMap (fun msg =>
    (jsonMarshal msg).map (fun b =>
      { EventType := MessageSent, Data := b, ID := msg.ID, Retry := 0 }))

/-- One `for msg := range ch` forwarding loop: appends every received
message to the trace of messages sent to the subscriber channel. -/
def chanForward (sent : List sse.Event) (ch : List sse.Event) : List sse.Event :=
  ch.foldl (fun acc msg => acc ++ [msg]) sent

/-- The transient goroutine of `MessageNotifierWithBuffer.Subscribe`
(part_013): drains `tmpChan` completely, then forwards the live deliveries
arriving on `transientChan`. -/
def transientGoroutine (tmp live : List sse.Event) : List sse.Event :=
  chanForward (chanForward [] tmp) live

/-- Everything `MessageNotifierWithBuffer.Subscribe` (part_013) causes to be
sent on the subscriber channel for one subscription: the buffer replay
relative to the context's last event id, then the live events. -/
def SubscribeDelivered (jsonMarshal : EventSentMessage → Option (List Char))
    (buffer : MessageCircularBuffer) (lastEventID : List Char)
    (live : List sse.Event) : List sse.Event :=
  transientGoroutine (tmpChanContents jsonMarshal (LastMessages buffer lastEventID)) live

theorem chanForward_eq (ch : List sse.Event) :
    ∀ sent : List sse.Event, chanForward sent ch = sent ++ ch := by
  induction ch with
  | nil => intro sent; simp [chanForward]
  | cons x xs ih =>
    intro sent
    rw [chanForward, List.foldl_cons]
    have h := ih (sent ++ [x])
    rw [chanForward] at h
    rw [h]
    simp

/-- C7: the subscriber receives all replayed (buffered) messages before any
message newly fanned out live on the same subscription: the delivered
sequence is exactly the replay frames followed by the live frames, so
every replayed frame occupies a position strictly before every live
frame. -/
theorem replay_before_live (jsonMarshal : EventSentMessage → Option (List Char))
    (buffer : MessageCircularBuffer) (lastEventID : List Char) (live : List sse.Event) :
    SubscribeDelivered jsonMarshal buffer lastEventID live =
      tmpChanContents jsonMarshal (LastMessages buffer lastEventID) ++ live ∧
    (∀ i, i < (tmpChanContents jsonMarshal (LastMessages buffer lastEventID)).length →
      (SubscribeDelivered jsonMarshal buffer lastEventID live)[i]? =
        (tmpChanContents jsonMarshal (LastMessages buffer lastEventID))[i]?) ∧
    (∀ j, (SubscribeDelivered jsonMarshal buffer lastEventID live)[(tmpChanContents
        jsonMarshal (LastMessages buffer lastEventID)).length + j]? = live[j]?) := by
  have hmain : SubscribeDelivered jsonMarshal buffer lastEventID live =
      tmpChanContents jsonMarshal (LastMessages buffer lastEventID) ++ live := by
    rw [SubscribeDelivered, transientGoroutine, chanForward_eq, chanForward_eq]
    simp
  refine ⟨hmain, ?_, ?_⟩
  · intro i hi
    rw [hmain, List.getElem?_append, if_pos hi]
  · intro j
    rw [hmain]
    rw [List.getElem?_append_right (by omega)]
    congr 1
    omega

/-- Concrete live frame and marshaller for the C7 witness. -/
def liveFrameW : sse.Event := { EventType := MessageSent, Data := ['l'], ID := ['z'], Retry := 0 }

def marshalW (msg : EventSentMessage) : Option (List Char) := some msg.Content

def bufferW : MessageCircularBuffer :=
  pushAll (NewMessageCircularBuffer ((2 : Nat) : Int)) [msgA, msgB]

/-- Witness for C7 at a concrete buffer with two replayed messages and one
live message. -/
theorem replay_before_live_witness :
    SubscribeDelivered marshalW bufferW [] [liveFrameW] =
      tmpChanContents marshalW (LastMessages bufferW []) ++ [liveFrameW] ∧
    (SubscribeDelivered marshalW bufferW [] [liveFrameW])[0]? =
      (tmpChanContents marshalW (LastMessages bufferW []))[0]? := by
  have h := replay_before_live marshalW bufferW [] [liveFrameW]
  exact ⟨h.1, h.2.1 0 (by decide)⟩

/-!
## Event bridge router (service/bridge.go)

Event handlers perform arbitrary side effects; for dispatch accounting only
their identity matters, so the embedding is parametric in a handler type
`H`.  Both `bridgeEventHandlerComposite.EventHook` and
`BridgeEventRouter.EventHook` spawn one goroutine per dispatched handler
and wait on a `sync.WaitGroup` before returning; the Lean functions return
the sequence of handler invocations that have all completed by the time
the Go method returns.
-/

/-- BridgeEvent is the single event data model (bridge.go).  `Name` is the
event type; the headers map is modelled as an association list. -/
structure BridgeEvent where
  Name : List Char
  ID : List Char
  CreatedAt : Int
  Headers : List (List Char × List Char)
  Data : List Char
deriving DecidableEq

/-- BridgeEventGlob matches all event types (bridge.go). -/
def BridgeEventGlob : List Char := ['*']

/-- bridgeEventHandlerComposite.EventHook (bridge.go): invokes every handler
of the composite once with the event, concurrently, and waits for all of
them. -/
def bridgeEventHandlerComposite.EventHook {H : Type} (ehc : List H) (evt : BridgeEvent) :
    List (H × BridgeEvent) :=
  ehc.map (fun h => (h, evt))

/-- BridgeEventRouter (bridge.go): a Go map from event type to handler
composite, modelled extensionally; a `none` lookup is the map's missing-key
case. -/
structure BridgeEventRouter (H : Type) where
  hooks : List Char → Option (List H)

/-- BridgeEventRouter.Hook (bridge.go): appends the handler to the hook list
for the given type, creating an empty composite first when the type has no
entry. -/
def BridgeEventRouter.Hook {H : Type} (r : BridgeEventRouter H) (t : List Char) (h : H) :
    BridgeEventRouter H :=
  { hooks := fun t2 => if t2 = t then some ((r.hooks t).getD [] ++ [h]) else r.hooks t2 }

/-- BridgeEventRouter.EventHook (bridge.go): looks up the wildcard composite
and the composite for the event's type, dispatches each found composite
concurrently and waits for both to complete. -/
def BridgeEventRouter.EventHook {H : Type} (r : BridgeEventRouter H) (evt : BridgeEvent) :
    List (H × BridgeEvent) :=
  (match r.hooks BridgeEventGlob with
   | some globHandler => bridgeEventHandlerComposite.EventHook globHandler evt
   | none => []) ++
  (match r.hooks evt.Name with
   | some handler => bridgeEventHandlerComposite.EventHook handler evt
   | none => [])

theorem eventHook_eq_append {H : Type} (r : BridgeEventRouter H) (evt : BridgeEvent) :
    r.EventHook evt =
      bridgeEventHandlerComposite.EventHook ((r.hooks BridgeEventGlob).getD []) evt ++
      bridgeEventHandlerComposite.EventHook ((r.hooks evt.Name).getD []) evt := by
  rw [BridgeEventRouter.EventHook]
  cases hg : r.hooks BridgeEventGlob <;> cases hn : r.hooks evt.Name <;>
    simp [bridgeEventHandlerComposite.EventHook]

theorem count_composite {H : Type} [DecidableEq H] (l : List H) (evt : BridgeEvent) (h : H) :
    ((bridgeEventHandlerComposite.EventHook l evt).map Prod.fst).count h = l.count h := by
  rw [bridgeEventHandlerComposite.EventHook, List.map_map]
  have hid : (Prod.fst ∘ fun x : H => (x, evt)) = id := rfl
  rw [hid, List.map_id]

/-- C1: for every event dispatched through `BridgeEventRouter.EventHook`,
the completed invocations are exactly one invocation per registration in
the wildcard composite plus one per registration in the composite of the
event's type — counted as a multiset, so each registered hook fires
exactly once per group it is registered in — and every invocation receives
that event.  When the event's type has no registered composite, only the
wildcard hooks fire.  `EventHook` awaits its wait group, so the returned
sequence is complete when it returns. -/
theorem router_dispatch_exactly_once {H : Type} [DecidableEq H]
    (r : BridgeEventRouter H) (evt : BridgeEvent) :
    (∀ h : H, ((r.EventHook evt).map Prod.fst).count h =
      ((r.hooks BridgeEventGlob).getD []).count h + ((r.hooks evt.Name).getD []).count h) ∧
    (∀ p ∈ r.EventHook evt, p.2 = evt) ∧
    (r.hooks evt.Name = none →
      r.EventHook evt =
        bridgeEventHandlerComposite.EventHook ((r.hooks BridgeEventGlob).getD []) evt) := by
  refine ⟨?_, ?_, ?_⟩
  · intro h
    rw [eventHook_eq_append, List.map_append, List.count_append, count_composite,
      count_composite]
  · intro p hp
    rw [eventHook_eq_append] at hp
    rcases List.mem_append.mp hp with h1 | h1 <;>
    · rw [bridgeEventHandlerComposite.EventHook] at h1
      obtain ⟨a, -, ha⟩ := List.mem_map.mp h1
      rw [← ha]
  · intro hnone
    rw [eventHook_eq_append, hnone]
    simp [bridgeEventHandlerComposite.EventHook]

/-- Concrete routers for the C1 witness: `routerW` registers handler `0` for
both the wildcard and the `['m']` type; `routerNoHooksW` registers handler
`5` for the wildcard only. -/
def routerW : BridgeEventRouter Nat :=
  { hooks := fun t =>
      if t = BridgeEventGlob then some [0]
      else if t = ['m'] then some [0]
      else none }

def routerNoHooksW : BridgeEventRouter Nat :=
  { hooks := fun t => if t = BridgeEventGlob then some [5] else none }

def evtW : BridgeEvent :=
  { Name := ['m'], ID := ['1'], CreatedAt := 0, Headers := [], Data := [] }

def evtNoHooksW : BridgeEvent :=
  { Name := ['x'], ID := ['2'], CreatedAt := 0, Headers := [], Data := [] }

/-- Witness for C1: the doubly-registered handler fires once per
registration, and an event type without hooks fires only the wildcard
composite. -/
theorem router_dispatch_exactly_once_witness :
    ((routerW.EventHook evtW).map Prod.fst).count (0 : Nat) = 2 ∧
    routerNoHooksW.EventHook evtNoHooksW =
      bridgeEventHandlerComposite.EventHook [(5 : Nat)] evtNoHooksW := by
  constructor
  · have h := (router_dispatch_exactly_once routerW evtW).1 0
    rw [h]
    decide
  · have h := (router_dispatch_exactly_once routerNoHooksW evtNoHooksW).2.2 (by decide)
    have h2 : (routerNoHooksW.hooks BridgeEventGlob).getD [] = [(5 : Nat)] := by decide
    rw [h2] at h
    exact h

/-!
## SSE wire encoding (sse package, part_000)
-/

/-- Go `strings.Split` / `bytes.Split` with a single-character separator:
splits around every occurrence of the separator.  The result always has
one more element than there are separator occurrences; in particular the
split of an empty slice is one empty segment. -/
def goSplit (sep : Char) : List Char → List (List Char)
  | [] => [[]]
  | c :: rest =>
    if c = sep then [] :: goSplit sep rest
    else
      match goSplit sep rest with
      | [] => [[c]]
      | seg :: segs => (c :: seg) :: segs

theorem goSplit_no_sep (sep : Char) (l : List Char) (h : sep ∉ l) : goSplit sep l = [l] := by
  induction l with
  | nil => rfl
  | cons c cs ih =>
    have hc : ¬c = sep := by
      intro hcon
      exact h (hcon ▸ List.mem_cons_self c cs)
    have hcs : sep ∉ cs := fun hmem => h (List.mem_cons_of_mem c hmem)
    rw [goSplit, if_neg hc, ih hcs]

theorem goSplit_around_sep (sep : Char) (a b : List Char) (ha : sep ∉ a) (hb : sep ∉ b) :
    goSplit sep (a ++ sep :: b) = [a, b] := by
  induction a with
  | nil =>
    rw [List.nil_append, goSplit, if_pos rfl, goSplit_no_sep sep b hb]
  | cons c cs ih =>
    have hc : ¬c = sep := by
      intro hcon
      exact ha (hcon ▸ List.mem_cons_self c cs)
    have hcs : sep ∉ cs := fun hmem => ha (List.mem_cons_of_mem c hmem)
    rw [List.cons_append, goSplit, if_neg hc, ih hcs]

/-- `fmt`-style decimal rendering of an `int64` (the `%d` verb). -/
def intDecimal (i : Int) : List Char :=
  if i < 0 then '-' :: Nat.toDigits 10 (-i).toNat
  else Nat.toDigits 10 i.toNat

def eventFieldStr : String := "event: "

def idFieldStr : String := "id: "

def retryFieldStr : String := "retry: "

def dataFieldStr : String := "data: "

/-- sse.Encode (part_000): writes `event: <type>\n`; then `id: <id>\n` when
the ID is non-empty; then `retry: <ms>\n` when Retry is non-zero; then one
`data: <line>\n` per segment of `Data` split on newlines; then a final
newline.  Each `fmt.Fprintf` call is one appended chunk. -/
def sse.Encode (v : sse.Event) : List Char :=
  (eventFieldStr.data ++ v.EventType ++ ['\n']) ++
  (if v.ID ≠ [] then idFieldStr.data ++ v.ID ++ ['\n'] else []) ++
  (if v.Retry ≠ 0 then retryFieldStr.data ++ intDecimal v.Retry ++ ['\n'] else []) ++
  ((goSplit '\n' v.Data).map (fun l => dataFieldStr.data ++ l ++ ['\n'])).flatten ++
  ['\n']

/-- The frame layout exactly as claim C6 words it, built independently of
`sse.Encode`: the list of lines of the frame — an `event:` line; an `id:`
line iff the ID field is non-empty; a `retry:` line iff the Retry field is
non-zero; one `data:` line per newline-separated segment of the Data
field; then a single empty line — each then terminated by a newline. -/
def sse.claimedFrameLines (v : sse.Event) : List (List Char) :=
  [eventFieldStr.data ++ v.EventType] ++
  (if v.ID = [] then [] else [idFieldStr.data ++ v.ID]) ++
  (if v.Retry = 0 then [] else [retryFieldStr.data ++ intDecimal v.Retry]) ++
  (goSplit '\n' v.Data).map (fun l => dataFieldStr.data ++ l) ++
  [[]]

def sse.claimedRender (v : sse.Event) : List Char :=
  ((sse.claimedFrameLines v).map (fun line => line ++ ['\n'])).flatten

/-- The concrete event of claim C6 and its expected wire encoding. -/
def hugeEventDataStr : String := "one\ntwo\nthree"

def hugeEventTypeStr : String := "hugevent"

def hugeEventIDStr : String := "someotherid"

def hugeEventW : sse.Event :=
  { EventType := hugeEventTypeStr.data
    ID := hugeEventIDStr.data
    Retry := 2137
    Data := hugeEventDataStr.data }

def hugeEventExpectedStr : String :=
  "event: hugevent\nid: someotherid\nretry: 2137\ndata: one\ndata: two\ndata: three\n\n"

/-- C6: `sse.Encode` produces exactly the line structure the claim
describes, for every event; and the concrete multi-line event of the claim
encodes to exactly the claimed byte sequence. -/
theorem sse_encode_line_structure :
    (∀ v : sse.Event, sse.Encode v = sse.claimedRender v) ∧
    sse.Encode hugeEventW = hugeEventExpectedStr.data := by
  constructor
  · intro v
    rw [sse.Encode, sse.claimedRender, sse.claimedFrameLines]
    rw [List.map_append, List.map_append, List.map_append, List.map_append]
    rw [List.flatten_append, List.flatten_append, List.flatten_append, List.flatten_append]
    rw [List.map_map]
    by_cases hid : v.ID = []
    · by_cases hr : v.Retry = 0
      · rw [if_neg (fun hcon => hcon hid), if_pos hid,
          if_neg (fun hcon : v.Retry ≠ 0 => hcon hr), if_pos hr]
        simp [Function.comp_def, List.append_assoc]
      · rw [if_neg (fun hcon => hcon hid), if_pos hid, if_pos hr, if_neg hr]
        simp [Function.comp_def, List.append_assoc]
    · by_cases hr : v.Retry = 0
      · rw [if_pos hid, if_neg hid, if_neg (fun hcon : v.Retry ≠ 0 => hcon hr), if_pos hr]
        simp [Function.comp_def, List.append_assoc]
      · rw [if_pos hid, if_neg hid, if_pos hr, if_neg hr]
        simp [Function.comp_def, List.append_assoc]
  · decide

/-!
## Session state and tokenizers (service/session.go, part_014)
-/

/-- SessionState (session.go): the user session model; `CreatedAt` and
`ExpireAt` are `time.Time` instants modelled as `Int`. -/
structure SessionState where
  Nickname : List Char
  ID : List Char
  CreatedAt : Int
  ExpireAt : Int
deriving DecidableEq

/-- The ways `SessionCookieStore.SessionState` (session.go) can fail:
missing cookie, tokenizer decode failure, or the dedicated
`ErrSessionStateExpire` error. -/
inductive SessionStateError
  | cookieMissing
  | decodeFailed (e : List Char)
  | ErrSessionStateExpire
deriving DecidableEq

/-- SessionCookieStore (session.go): the cookie expiration time, the
tokenizer decode capability and the clock. -/
structure SessionCookieStore where
  ExpirationTime : Int
  TokenDecode : List Char → Except (List Char) SessionState
  Now : Int

/-- SessionCookieStore.SessionState (session.go): retrieves the session
cookie, decodes it with the tokenizer, and rejects a decoded state whose
`ExpireAt` is before the current clock with `ErrSessionStateExpire`.
`cookie` is the value of the `SzmaterlokSession` cookie when present. -/
def SessionCookieStore.sessionState (cs : SessionCookieStore) (cookie : Option (List Char)) :
    Except SessionStateError SessionState :=
  match cookie with
  | none => .error .cookieMissing
  | some v =>
    match cs.TokenDecode v with
    | .error e => .error (.decodeFailed e)
    | .ok state =>
      if state.ExpireAt < cs.Now then .error .ErrSessionStateExpire
      else .ok state

/-- C4: for every token whose embedded session state has `expireAt` earlier
than the current clock, the decode pipeline rejects the token with the
dedicated session-expired error instead of returning a session state. -/
theorem expired_session_rejected (cs : SessionCookieStore) (v : List Char)
    (s : SessionState) (hdec : cs.TokenDecode v = .ok s) (hexp : s.ExpireAt < cs.Now) :
    cs.sessionState (some v) = .error .ErrSessionStateExpire := by
  rw [SessionCookieStore.sessionState, hdec]
  simp [if_pos hexp]

/-- An already-expired state and a cookie store whose tokenizer decodes
every token to it, for the C4 witness. -/
def expiredStateW : SessionState :=
  { Nickname := ['k'], ID := ['u'], CreatedAt := 0, ExpireAt := 5 }

def cookieStoreW : SessionCookieStore :=
  { ExpirationTime := 604800000000
    TokenDecode := fun _ => .ok expiredStateW
    Now := 100 }

/-- Witness for C4 at a concrete expired token. -/
theorem expired_session_rejected_witness :
    cookieStoreW.sessionState (some ['t']) = .error .ErrSessionStateExpire :=
  expired_session_rejected cookieStoreW ['t'] expiredStateW rfl (by decide)

/-!
## Session tokenizer backends (part_014)

The tokenizers compose repository code with external primitives:
`encoding/json`, `encoding/base64` (URL alphabet, whose output never
contains a colon), the `filippo.io/age` scrypt encryption and the
`crypto/cipher` CFB stream cipher, plus `os.Hostname` and the uuid
generator.  The externals are collected in one record; Go strings are
`List Char` and byte slices are `List Nat`.
-/

structure TokenizerExternals where
  jsonMarshal : SessionState → List Nat
  jsonUnmarshal : List Nat → Except (List Char) SessionState
  base64Encode : List Nat → List Char
  base64Decode : List Char → Except (List Char) (List Nat)
  ageEncrypt : List Char → List Nat → List Nat
  ageDecrypt : List Char → List Nat → Except (List Char) (List Nat)
  cfbEncrypt : List Nat → List Nat → List Nat → List Nat
  cfbDecrypt : List Nat → List Nat → List Nat → List Nat
  stringToBytes : List Char → List Nat
  bytesToString : List Nat → List Char

def errMissingStr : String := "session: missing token"

/-- ErrMissingSessionToken (part_014). -/
def ErrMissingSessionToken : List Char := errMissingStr.data

/-- SessionSimpleTokenizer (part_014): an in-memory map from token strings
to stored session states. -/
structure SessionSimpleTokenizer where
  storage : List Char → Option SessionState

/-- The token string `TokenEncode` generates: the fresh uuid, prefixed by
`hostname + "/"` when `os.Hostname` succeeds (part_014). -/
def simpleToken (genID : List Char) (hostname : Option (List Char)) : List Char :=
  match hostname with
  | some hn => hn ++ ['/'] ++ genID
  | none => genID

/-- SessionSimpleTokenizer.TokenEncode (part_014): stores the state in the
map under the generated token and returns the base64 of the token together
with the updated tokenizer state. -/
def SessionSimpleTokenizer.TokenEncode (X : TokenizerExternals)
    (genID : List Char) (hostname : Option (List Char))
    (t : SessionSimpleTokenizer) (state : SessionState) :
    List Char × SessionSimpleTokenizer :=
  let token := simpleToken genID hostname
  (X.base64Encode (X.stringToBytes token),
   { storage := fun k => if k = token then some state else t.storage k })

/-- SessionSimpleTokenizer.TokenDecode (part_014): base64-decodes the token
and looks the resulting string up in the storage map. -/
def SessionSimpleTokenizer.TokenDecode (X : TokenizerExternals)
    (t : SessionSimpleTokenizer) (token : List Char) :
    Except (List Char) SessionState :=
  match X.base64Decode token with
  | .error e => .error e
  | .ok b =>
    match t.storage (X.bytesToString b) with
    | none => .error ErrMissingSessionToken
    | some s => .ok s

/-- SessionAgeTokenizer.TokenEncode (part_014): age-encrypts the JSON
encoding of the state with the scrypt recipient derived from the secret,
then base64s the ciphertext.  The tokenizer state is exactly the secret,
so a freshly constructed instance with the same secret decodes the same
tokens. -/
def SessionAgeTokenizer.TokenEncode (X : TokenizerExternals) (secret : List Char)
    (state : SessionState) : List Char :=
  X.base64Encode (X.ageEncrypt secret (X.jsonMarshal state))

/-- SessionAgeTokenizer.TokenDecode (part_014): base64-decode, age-decrypt
with the scrypt identity derived from the secret, then JSON-decode. -/
def SessionAgeTokenizer.TokenDecode (X : TokenizerExternals) (secret : List Char)
    (token : List Char) : Except (List Char) SessionState :=
  match X.base64Decode token with
  | .error e => .error e
  | .ok b =>
    match X.ageDecrypt secret b with
    | .error e => .error e
    | .ok out => X.jsonUnmarshal out

/-- Outcome of a Go call that can also terminate with a runtime panic. -/
inductive GoOutcome (α : Type)
  | ok (a : α)
  | error (e : List Char)
  | crash (msg : List Char)
deriving DecidableEq

def indexOutOfRangeStr : String := "runtime error: index out of range"

/-- SessionAESTokenizer.TokenEncode (part_014): CFB-encrypts the JSON
encoding of the state with the random iv and returns
`base64(iv) + ":" + base64(ciphertext)`. -/
def SessionAESTokenizer.TokenEncode (X : TokenizerExternals) (key : List Nat)
    (iv : List Nat) (state : SessionState) : List Char :=
  X.base64Encode iv ++ [':'] ++ X.base64Encode (X.cfbEncrypt key iv (X.jsonMarshal state))

/-- SessionAESTokenizer.TokenDecode (part_014): splits the token on `":"`,
base64-decodes `splitted[0]` — returning an error when that fails — and
only then evaluates the statement that indexes `splitted[1]`; when the
token contains no colon the split has a single element, so after a
successful decode of `splitted[0]` the `splitted[1]` index is a runtime
panic, while a failed decode of `splitted[0]` returns its error first. -/
def SessionAESTokenizer.TokenDecode (X : TokenizerExternals) (key : List Nat)
    (token : List Char) : GoOutcome SessionState :=
  match goSplit ':' token with
  | [] => .crash indexOutOfRangeStr.data
  | [s0] =>
    match X.base64Decode s0 with
    | .error e => .error e
    | .ok _ => .crash indexOutOfRangeStr.data
  | s0 :: s1 :: _ =>
    match X.base64Decode s0 with
    | .error e => .error e
    | .ok iv =>
      match X.base64Decode s1 with
      | .error e => .error e
      | .ok b =>
        match X.jsonUnmarshal (X.cfbDecrypt key iv b) with
        | .error e => .error e
        | .ok res => .ok res

/-- C9 (amended): on a token without a colon, decode never reaches a
decoded state: when the single split segment base64-decodes successfully —
the empty token being the simplest such case — the access to `splitted[1]`
is an out-of-range panic; when the segment fails base64 decoding, that
error is returned before `splitted[1]` is ever indexed.  So decode of a
malformed AES token is not total, but the panic class is the colon-free
tokens with base64-valid content. -/
theorem aes_decode_no_colon_not_total (X : TokenizerExternals) (key : List Nat)
    (token : List Char) (hc : ':' ∉ token) :
    (∀ b, X.base64Decode token = .ok b →
      SessionAESTokenizer.TokenDecode X key token = .crash indexOutOfRangeStr.data) ∧
    (∀ e, X.base64Decode token = .error e →
      SessionAESTokenizer.TokenDecode X key token = .error e) := by
  constructor
  · intro b hb
    rw [SessionAESTokenizer.TokenDecode, goSplit_no_sep ':' token hc]
    simp only [hb]
  · intro e he
    rw [SessionAESTokenizer.TokenDecode, goSplit_no_sep ':' token hc]
    simp only [he]

/-- Trivial externals for the witnesses: identity-like primitives small
enough for `decide` to evaluate. -/
def externalsW : TokenizerExternals :=
  { jsonMarshal := fun _ => [7]
    jsonUnmarshal := fun _ => .ok expiredStateW
    base64Encode := fun bs => bs.map (fun b => Char.ofNat (b + 1000))
    base64Decode := fun cs => .ok (cs.map (fun c => c.toNat - 1000))
    ageEncrypt := fun _ b => b
    ageDecrypt := fun _ b => .ok b
    cfbEncrypt := fun _ _ b => b
    cfbDecrypt := fun _ _ b => b
    stringToBytes := fun s => s.map Char.toNat
    bytesToString := fun bs => bs.map Char.ofNat }

/-- Witness for C9 at the empty token, whose single segment base64-decodes
successfully (to the empty byte slice), so the `splitted[1]` access
panics. -/
theorem aes_decode_no_colon_not_total_witness :
    SessionAESTokenizer.TokenDecode externalsW [] [] = .crash indexOutOfRangeStr.data :=
  (aes_decode_no_colon_not_total externalsW [] [] (by decide)).1 [] (by rfl)

/-- Whether a character belongs to the URL base64 alphabet (including the
padding character), which `base64.URLEncoding.DecodeString` accepts. -/
def isBase64URLChar (c : Char) : Bool :=
  (65 ≤ c.toNat && c.toNat ≤ 90) || (97 ≤ c.toNat && c.toNat ≤ 122) ||
  (48 ≤ c.toNat && c.toNat ≤ 57) || c == '-' || c == '_' || c == '='

def illegalBase64Str : String := "illegal base64 data"

/-- Externals whose base64 decoder, like `base64.URLEncoding.DecodeString`,
rejects input containing characters outside the URL base64 alphabet. -/
def externalsB64CheckW : TokenizerExternals :=
  { externalsW with
    base64Decode := fun cs =>
      if cs.all isBase64URLChar then .ok (cs.map Char.toNat)
      else .error illegalBase64Str.data }

/-- Counterexample to C9 as stated: the token `"!"` contains no colon, yet
decode does not panic — base64-decoding `splitted[0]` fails first (`'!'`
is outside the URL base64 alphabet) and that error is returned, so not
every colon-free token reaches the out-of-range index. -/
theorem aes_decode_bang_returns_error :
    SessionAESTokenizer.TokenDecode externalsB64CheckW [] ['!'] =
      .error illegalBase64Str.data ∧
    SessionAESTokenizer.TokenDecode externalsB64CheckW [] ['!'] ≠
      .crash indexOutOfRangeStr.data := by
  constructor <;> decide

/-- C5: for every session state `s` with `expireAt` later than the current
clock, each tokenizer backend decodes its own encoding of `s` back to `s`:
the simple backend when decoding with the post-encode instance, and the
stateless age and aes backends even with a freshly constructed instance
from the same secret/key (their entire state is that secret/key).  The
hypotheses are the documented round-trip contracts of the external
json/base64/age/cfb primitives at the values the code passes them, plus
the fact that the base64 URL alphabet never produces a colon. -/
theorem tokenizer_roundtrip (X : TokenizerExternals) (s : SessionState) (now : Int)
    (hexp : now < s.ExpireAt)
    (secret : List Char) (key iv : List Nat)
    (genID : List Char) (hostname : Option (List Char)) (t : SessionSimpleTokenizer)
    (hjson : X.jsonUnmarshal (X.jsonMarshal s) = .ok s)
    (hageRT : X.ageDecrypt secret (X.ageEncrypt secret (X.jsonMarshal s)) =
      .ok (X.jsonMarshal s))
    (hb64age : X.base64Decode (X.base64Encode (X.ageEncrypt secret (X.jsonMarshal s))) =
      .ok (X.ageEncrypt secret (X.jsonMarshal s)))
    (hcfbRT : X.cfbDecrypt key iv (X.cfbEncrypt key iv (X.jsonMarshal s)) = X.jsonMarshal s)
    (hb64iv : X.base64Decode (X.base64Encode iv) = .ok iv)
    (hb64ct : X.base64Decode (X.base64Encode (X.cfbEncrypt key iv (X.jsonMarshal s))) =
      .ok (X.cfbEncrypt key iv (X.jsonMarshal s)))
    (hcoloniv : ':' ∉ X.base64Encode iv)
    (hcolonct : ':' ∉ X.base64Encode (X.cfbEncrypt key iv (X.jsonMarshal s)))
    (hb64tok : X.base64Decode (X.base64Encode (X.stringToBytes (simpleToken genID hostname))) =
      .ok (X.stringToBytes (simpleToken genID hostname)))
    (hstrRT : X.bytesToString (X.stringToBytes (simpleToken genID hostname)) =
      simpleToken genID hostname) :
    (SessionSimpleTokenizer.TokenDecode X
      (SessionSimpleTokenizer.TokenEncode X genID hostname t s).2
      (SessionSimpleTokenizer.TokenEncode X genID hostname t s).1 = .ok s) ∧
    (SessionAgeTokenizer.TokenDecode X secret
      (SessionAgeTokenizer.TokenEncode X secret s) = .ok s) ∧
    (SessionAESTokenizer.TokenDecode X key
      (SessionAESTokenizer.TokenEncode X key iv s) = .ok s) := by
  refine ⟨?_, ?_, ?_⟩
  · rw [SessionSimpleTokenizer.TokenEncode, SessionSimpleTokenizer.TokenDecode]
    simp only [hb64tok, hstrRT]
    simp
  · rw [SessionAgeTokenizer.TokenEncode, SessionAgeTokenizer.TokenDecode]
    simp only [hb64age, hageRT, hjson]
  · rw [SessionAESTokenizer.TokenEncode, SessionAESTokenizer.TokenDecode]
    have hsplit : goSplit ':' (X.base64Encode iv ++ [':'] ++
        X.base64Encode (X.cfbEncrypt key iv (X.jsonMarshal s))) =
        [X.base64Encode iv, X.base64Encode (X.cfbEncrypt key iv (X.jsonMarshal s))] := by
      rw [List.append_assoc, List.singleton_append]
      exact goSplit_around_sep ':' _ _ hcoloniv hcolonct
    rw [hsplit]
    simp only [hb64iv, hb64ct, hcfbRT, hjson]

/-- Witness parameters for C5. -/
def genIDW : List Char := ['g']

def hostnameW : Option (List Char) := some ['h']

def simpleTokenizerW : SessionSimpleTokenizer := { storage := fun _ => none }

set_option maxRecDepth 8000 in
/-- Witness for C5: all three backends round-trip a concrete state through
the concrete identity-like externals. -/
theorem tokenizer_roundtrip_witness :
    (SessionSimpleTokenizer.TokenDecode externalsW
      (SessionSimpleTokenizer.TokenEncode externalsW genIDW hostnameW simpleTokenizerW
        expiredStateW).2
      (SessionSimpleTokenizer.TokenEncode externalsW genIDW hostnameW simpleTokenizerW
        expiredStateW).1 = .ok expiredStateW) ∧
    (SessionAgeTokenizer.TokenDecode externalsW ['s']
      (SessionAgeTokenizer.TokenEncode externalsW ['s'] expiredStateW) =
        .ok expiredStateW) ∧
    (SessionAESTokenizer.TokenDecode externalsW [1]
      (SessionAESTokenizer.TokenEncode externalsW [1] [3] expiredStateW) =
        .ok expiredStateW) :=
  tokenizer_roundtrip externalsW expiredStateW 0 (by decide) ['s'] [1] [3]
    genIDW hostnameW simpleTokenizerW
    (by rfl) (by rfl) (by rfl) (by rfl) (by rfl) (by rfl)
    (by decide) (by decide) (by rfl) (by rfl)

/-!
## Online users state (service/state.go)
-/

/-- StateChatUser (state.go): a single logged-in chat user. -/
structure StateChatUser where
  ID : List Char
  Nickname : List Char
deriving DecidableEq

/-- StateOnlineUsers (state.go): the Go map `userID → StateChatUser`
modelled extensionally. -/
structure StateOnlineUsers where
  state : List Char → Option StateChatUser

def errNoSuchUserStr : String := "state: there is no such user"

/-- ErrNoSuchUser (state.go). -/
def ErrNoSuchUser : List Char := errNoSuchUserStr.data

/-- StateOnlineUsers.RemoveChatUser (state.go): looks the id up; when
absent, returns `ErrNoSuchUser` leaving the map untouched; when present,
deletes the entry and returns no error.  The result carries the updated
receiver and the returned error. -/
def StateOnlineUsers.RemoveChatUser (s : StateOnlineUsers) (id : List Char) :
    StateOnlineUsers × Option (List Char) :=
  match s.state id with
  | none => (s, some ErrNoSuchUser)
  | some _ => ({ state := fun k => if k = id then none else s.state k }, none)

/-- C8: removing an id that is not present fails with the typed
`ErrNoSuchUser` error and leaves the online-users state unchanged;
removing a present id succeeds and removes exactly that entry. -/
theorem removeChatUser_spec (s : StateOnlineUsers) (id : List Char) :
    (s.state id = none → s.RemoveChatUser id = (s, some ErrNoSuchUser)) ∧
    (∀ u, s.state id = some u →
      (s.RemoveChatUser id).2 = none ∧
      (s.RemoveChatUser id).1.state id = none ∧
      (∀ k, k ≠ id → (s.RemoveChatUser id).1.state k = s.state k)) := by
  constructor
  · intro h
    rw [StateOnlineUsers.RemoveChatUser, h]
  · intro u h
    rw [StateOnlineUsers.RemoveChatUser, h]
    refine ⟨rfl, by simp, ?_⟩
    intro k hk
    simp [if_neg hk]

/-- A concrete one-user state for the C8 witness. -/
def chatUserStateW : StateChatUser := { ID := ['a'], Nickname := ['n'] }

def onlineUsersW : StateOnlineUsers :=
  { state := fun k => if k = ['a'] then some chatUserStateW else none }

/-- Witness for C8: removing an absent id errs and keeps the state;
removing the present id deletes exactly that entry. -/
theorem removeChatUser_spec_witness :
    onlineUsersW.RemoveChatUser ['x'] = (onlineUsersW, some ErrNoSuchUser) ∧
    (onlineUsersW.RemoveChatUser ['a']).2 = none ∧
    (onlineUsersW.RemoveChatUser ['a']).1.state ['a'] = none ∧
    (onlineUsersW.RemoveChatUser ['a']).1.state ['b'] = onlineUsersW.state ['b'] :=
  ⟨(removeChatUser_spec onlineUsersW ['x']).1 (by decide),
   ((removeChatUser_spec onlineUsersW ['a']).2 chatUserStateW (by decide)).1,
   ((removeChatUser_spec onlineUsersW ['a']).2 chatUserStateW (by decide)).2.1,
   ((removeChatUser_spec onlineUsersW ['a']).2 chatUserStateW (by decide)).2.2 ['b'] (by decide)⟩

end Szmaterlok
